import Mathlib

namespace VirtualDesktops

/-!
Verification of the virtual-desktops extension core.

This file gives a shallow embedding, in Lean 4, of the core of the
virtual-desktops Chrome extension:

* the settings clamp (`settings.js`: `clampDefault_`, `getDesktops`);
* the desktop-id normalization algorithm of
  `VirtualDesktopManager.numberToDesktopId_`;
* the window-state refresh `updateWindowStates_`, the two-phase
  `applyWindowStates_` / `switchToDesktop` pipeline, and `forgetWindow`;
* the `WakeupQueue` sequential task queue;
* the `BarrierClosure` fan-in barrier (modelled from the design
  specification, since only its unit test ships with the sources);
* the `WindowProvider` geometry-reconciliation logic
  (`fixUpdateInfo`, `checkWindowUpdated_`).

JavaScript arithmetic notes used throughout the embedding:

* the JS `%` operator is a remainder that truncates toward zero, which is
  `Int.tmod` in Lean;
* `Math.round(x)` rounds half-integers toward positive infinity, so for
  integers `d` and `n > 0`, `Math.round(d / n) = ⌊(2*d + n) / (2*n)⌋`,
  which is `Int.fdiv (2*d + n) (2*n)` (the quotients involved are exact
  dyadic rationals, so double-precision evaluation is exact);
* `null` coerces to `0` in JS arithmetic, which the embedding renders as
  `Option.getD · 0` where a possibly-`null` field enters arithmetic.
-/

/-! ## Settings (settings.js) -/

/-- `virtualdesktops.settings.clampDefault_`: parse a stored value, return
`dflt` when it is not a number, otherwise clamp it into `[lo, hi]`.
`none` models a missing or non-numeric stored value (`parseInt` → `NaN`). -/
def clampDefault (value : Option Int) (lo hi dflt : Int) : Int :=
  match value with
  | none => dflt
  | some v => min (max v lo) hi

/-- `virtualdesktops.settings.getDesktops`: the stored desktop count clamped
into `[1, 10]` with default 4. -/
def getDesktops (stored : Option Int) : Int :=
  clampDefault stored 1 10 4

/-! ## Window state (virtual_desktop_manager.js data model) -/

/-- The `MINIMIZED_STATE_` constant of `VirtualDesktopManager`. -/
def MINIMIZED_STATE : String := "minimized"

/-- A remembered per-window state, as stored in `windowStates_`:
desktop assignment, lifecycle state string, and last known bounds
(`x`/`y`/`w`/`h` mirror the stored field names; `none` models `null`). -/
structure WindowState where
  desktop : Int
  state : String
  x : Option Int
  y : Option Int
  w : Option Int
  h : Option Int
deriving DecidableEq, Repr

/-- A live window snapshot as returned by the `chrome.windows` API
(the fields of `ChromeWindow` the manager reads). -/
structure ChromeWindow where
  id : Nat
  left : Option Int
  top : Option Int
  width : Option Int
  height : Option Int
  focused : Bool
  state : String
deriving DecidableEq, Repr

/-- The `windowStates_` map, keyed by window id.  A JS object keyed by
numbers is modelled as an association list whose keys are unique in every
state the manager actually builds. -/
abbrev WindowStates := List (Nat × WindowState)

/-- Reading `windowStates_[id]`; `none` models `undefined`. -/
def lookupState (ws : WindowStates) (id : Nat) : Option WindowState :=
  (ws.find? (fun p => p.1 = id)).map (fun p => p.2)

/-- The mutable state of a `VirtualDesktopManager`: `currentDesktop_` and
`windowStates_` (the two fields persisted by `saveState_`). -/
structure MState where
  currentDesktop : Int
  windowStates : WindowStates
deriving DecidableEq, Repr

/-! ## Desktop-id normalization (`numberToDesktopId_`) -/

/-- The clamping prologue of `numberToDesktopId_`: clamp
`currentDesktop_` to `n - 1` and, when clamping happened, remap the
request (shift a rightward request left by the clamping amount, collapse
any other out-of-range request to `n - 1`).  Returns
`(clampedCurrentDesktop, reqDesktop)` after this step. -/
def clampStep (n current req : Int) : Int × Int :=
  if current > n - 1 then
    (n - 1,
      if req > current then req - (current - (n - 1))
      else if req > n - 1 then n - 1
      else req)
  else (current, req)

/-- The double-modulo wrap `((reqDesktop + n) % n + n) % n` with JS `%`
semantics (`Int.tmod`). -/
def wrapDesktop (req n : Int) : Int :=
  Int.tmod (Int.tmod (req + n) n + n) n

/-- JS `Math.round (d / n)` for integers `d` and `n > 0`: half-integers
round toward positive infinity, so this is `⌊(2*d + n) / (2*n)⌋`. -/
def jsRoundDiv (d n : Int) : Int :=
  Int.fdiv (2 * d + n) (2 * n)

/-- The direction computation of `numberToDesktopId_`: map the raw
difference `d` into a centred residue via
`d - n * Math.round(d / n)`, then keep only its sign, a non-positive
residue giving `-1` (backward). -/
def directionFromDiff (n d : Int) : Int :=
  let centred := d - n * jsRoundDiv d n
  if centred ≤ 0 then -1 else 1

/-- The per-desktop count of remembered non-minimized windows
(`nWindowsOnDesktop[d]` in `numberToDesktopId_`). -/
def countNonMinimized (ws : WindowStates) (d : Int) : Nat :=
  (ws.filter (fun p => p.2.state ≠ MINIMIZED_STATE ∧ p.2.desktop = d)).length

/-- The `while (!(nWindowsOnDesktop[reqDesktop] > 0))` loop of
`numberToDesktopId_`: step `req` by `direction` (wrapping mod `n`) until a
desktop with a non-minimized window is found, or the walk returns to
`clampedCurrent`.  The loop is executed with explicit fuel; since the walk
steps by `±1` through the `n` residues and `clampedCurrent ∈ [0, n)`
whenever `currentDesktop_ ≥ 0`, fuel `n + 1` is never exhausted before one
of the loop's own exit conditions fires. -/
def avoidEmptyLoop (fuel : Nat) (ws : WindowStates) (n clampedCurrent direction req : Int) : Int :=
  match fuel with
  | 0 => req
  | fuel + 1 =>
    if countNonMinimized ws req > 0 then req
    else
      let req' := Int.tmod (req + direction + n) n
      if req' = clampedCurrent then req'
      else avoidEmptyLoop fuel ws n clampedCurrent direction req'

/-- `VirtualDesktopManager.numberToDesktopId_`: normalize a requested
desktop id into `[0, n)`, optionally avoiding desktops that hold no
remembered non-minimized window.  `n` is the desktop count read from the
settings at entry. -/
def numberToDesktopId (n : Int) (st : MState) (reqDesktop : Int) (disallowEmpty : Bool) : Int :=
  let clamped := clampStep n st.currentDesktop reqDesktop
  let wrapped := wrapDesktop clamped.2 n
  if disallowEmpty then
    let dir := directionFromDiff n (wrapped - clamped.1)
    avoidEmptyLoop (n.toNat + 1) st.windowStates n clamped.1 dir wrapped
  else wrapped

/-! ## C3: the direction rule of the empty-desktop avoidance -/

/-- The rounding the specification's direction rule asks for: the unique
`k` with `d - n * k` in the half-open interval `(-n/2, n/2]`, i.e.
`⌈(2*d - n) / (2*n)⌉`, written with floor division. -/
def specCeilHalf (d n : Int) : Int :=
  -(Int.fdiv (n - 2 * d) (2 * n))

/-- The direction computation exactly as the claim words it: map the raw
difference into `(-n/2, n/2]`, take the sign, a zero difference giving
`-1`. -/
def directionSpecClaimed (n d : Int) : Int :=
  let centred := d - n * specCeilHalf d n
  if centred ≤ 0 then -1 else 1

/-- `numberToDesktopId_` with `disallowEmpty = true` as described by the
claim: identical to the source algorithm except that the direction uses
the claimed interval `(-n/2, n/2]`. -/
def numberToDesktopIdSpecClaimed (n : Int) (st : MState) (reqDesktop : Int) : Int :=
  let clamped := clampStep n st.currentDesktop reqDesktop
  let wrapped := wrapDesktop clamped.2 n
  let dir := directionSpecClaimed n (wrapped - clamped.1)
  avoidEmptyLoop (n.toNat + 1) st.windowStates n clamped.1 dir wrapped

/-- Example state for the C3 counterexample: four desktops, current = 0,
remembered non-minimized windows on desktops 1 and 3 only. -/
def c3state : MState :=
  ⟨0, [(10, ⟨1, "normal", none, none, none, none⟩),
       (11, ⟨3, "normal", none, none, none, none⟩)]⟩

/-! ## Window-state refresh, two-phase apply, switchToDesktop, forgetWindow -/

/-- A partial window mutation, as passed to `WindowProvider.update`
(`ChromeWindowUpdateInfo`); absent fields are `none`. -/
structure UpdateInfo where
  state : Option String := none
  focused : Option Bool := none
  left : Option Int := none
  top : Option Int := none
  width : Option Int := none
  height : Option Int := none
deriving DecidableEq, Repr

/-- One `WindowProvider.update(winId, info, …)` call. -/
structure UpdateCall where
  winId : Nat
  info : UpdateInfo
deriving DecidableEq, Repr

/-- The fresh state `updateWindowStates_` writes for a window that is
unknown, on the current desktop, or not minimized. -/
def freshState (current : Int) (w : ChromeWindow) : WindowState :=
  ⟨current, w.state, w.left, w.top, w.width, w.height⟩

/-- The per-window case split of `updateWindowStates_`. -/
def refreshedState (current : Int) (old : WindowStates) (w : ChromeWindow) : WindowState :=
  match lookupState old w.id with
  | none => freshState current w
  | some prev =>
    if prev.desktop = current ∨ w.state ≠ MINIMIZED_STATE then freshState current w
    else prev

/-- `VirtualDesktopManager.updateWindowStates_`: rebuild the state map
from the live window list, dropping windows that no longer exist. -/
def updateWindowStates (current : Int) (old : WindowStates) (windows : List ChromeWindow) : WindowStates :=
  windows.map (fun w => (w.id, refreshedState current old w))

/-- Phase 1 of `applyWindowStates_` for one window: restore state and
focus on the target desktop, minimize everything else that is not already
minimized.  The lookup is always defined in the real call flow because
`updateWindowStates_` ran first; a missing entry yields no call. -/
def phase1Update (current : Int) (ws : WindowStates) (w : ChromeWindow) : Option UpdateCall :=
  match lookupState ws w.id with
  | none => none
  | some s =>
    if s.desktop = current then
      some ⟨w.id, { state := some s.state, focused := some (s.state != MINIMIZED_STATE) }⟩
    else if w.state = MINIMIZED_STATE then none
    else some ⟨w.id, { state := some MINIMIZED_STATE }⟩

/-- Phase 2 of `applyWindowStates_` for one window: restore bounds of the
non-minimized windows of the target desktop, focusing `focusedWinId`.
`focusedWinId = none` models a JS value that compares equal to no numeric
window id (`null`, or a non-numeric value). -/
def phase2Update (current : Int) (ws : WindowStates) (focusedWinId : Option Nat) (w : ChromeWindow) : Option UpdateCall :=
  match lookupState ws w.id with
  | none => none
  | some s =>
    if s.desktop = current ∧ s.state ≠ MINIMIZED_STATE then
      some ⟨w.id, { left := s.x, top := s.y, width := s.w, height := s.h,
                    focused := if focusedWinId = some w.id then some true else none }⟩
    else none

/-- `VirtualDesktopManager.applyWindowStates_`: the update calls issued,
phase 1 joined by a barrier before phase 2 starts, then the callback runs
once.  With a synchronously-acknowledging provider the issued calls are
exactly this list in this order. -/
def applyWindowStates (current : Int) (ws : WindowStates) (windows : List ChromeWindow) (focusedWinId : Option Nat) : List UpdateCall :=
  windows.filterMap (phase1Update current ws) ++
    windows.filterMap (phase2Update current ws focusedWinId)

/-- Setting `windowStates_[focusedWinId].desktop = desktop`. -/
def setDesktop (ws : WindowStates) (id : Nat) (d : Int) : WindowStates :=
  ws.map (fun p => if p.1 = id then (p.1, { p.2 with desktop := d }) else p)

/-- The `virtualdesktops.DISALLOW_EMPTY_DESKTOPS` compile-time define. -/
def DISALLOW_EMPTY_DESKTOPS : Bool := true

/-- Result of one `switchToDesktop` (or `forgetWindow`) call: the state
that is persisted by `saveState_`, the `WindowProvider.update` calls
issued, and how many times the user callback ran. -/
structure SwitchResult where
  state : MState
  updates : List UpdateCall
  callbacks : Nat
deriving DecidableEq, Repr

/-- Tail of `switchToDesktop` after the new desktop has been computed:
apply the states only when the desktop actually changed, otherwise run the
callback with no mutation. -/
def switchFinish (prev newCurrent : Int) (ws2 : WindowStates)
    (windows : List ChromeWindow) (focusedWinId : Option Nat) : SwitchResult :=
  if newCurrent = prev then
    ⟨⟨newCurrent, ws2⟩, [], 1⟩
  else
    ⟨⟨newCurrent, ws2⟩, applyWindowStates newCurrent ws2 windows focusedWinId, 1⟩

/-- `VirtualDesktopManager.switchToDesktop`, run against a window list
`windows` (the answer of `windowProvider_.getAll`).  `disallowEmpty` is
the `DISALLOW_EMPTY_DESKTOPS` define used for the second normalization. -/
def switchToDesktop (n : Int) (disallowEmpty : Bool) (st : MState)
    (windows : List ChromeWindow) (desktop : Int) (focusedWinId : Option Nat)
    (sendToDesktop : Bool) : SwitchResult :=
  let ws1 := updateWindowStates st.currentDesktop st.windowStates windows
  let target := numberToDesktopId n ⟨st.currentDesktop, ws1⟩ desktop false
  let ws2 :=
    if sendToDesktop then
      match focusedWinId with
      | some fid => if (lookupState ws1 fid).isSome then setDesktop ws1 fid target else ws1
      | none => ws1
    else ws1
  let newCurrent := numberToDesktopId n ⟨st.currentDesktop, ws2⟩ target disallowEmpty
  switchFinish st.currentDesktop newCurrent ws2 windows focusedWinId

/-- Deleting `windowStates_[winId]`. -/
def eraseState (ws : WindowStates) (id : Nat) : WindowStates :=
  ws.filter (fun p => p.1 ≠ id)

/-- `VirtualDesktopManager.forgetWindow`: drop the window's state,
persist, and — when `DISALLOW_EMPTY_DESKTOPS` — self-switch to the
current desktop.  The source passes the `ChromeWindow` object returned by
`getLastFocused` (not its `id`) as the numeric `focusedWinId` argument; a
JS object compares `==`-unequal to every numeric id and indexes no
numeric key, so the embedding passes `none`. -/
def forgetWindow (n : Int) (policy : Bool) (st : MState) (winId : Nat)
    (windows : List ChromeWindow) : SwitchResult :=
  let st' : MState := ⟨st.currentDesktop, eraseState st.windowStates winId⟩
  if policy then
    switchToDesktop n policy st' windows st.currentDesktop none false
  else
    ⟨st', [], 1⟩

/-- `forgetWindow` as claim C8 words it: the self-switch receives the
last-focused window's id. -/
def forgetWindowClaimed (n : Int) (policy : Bool) (st : MState) (winId : Nat)
    (windows : List ChromeWindow) (lastFocusedWindowId : Option Nat) : SwitchResult :=
  let st' : MState := ⟨st.currentDesktop, eraseState st.windowStates winId⟩
  if policy then
    switchToDesktop n policy st' windows st.currentDesktop lastFocusedWindowId false
  else
    ⟨st', [], 1⟩

/-- A sample live window for concrete instantiations. -/
def exWin (i : Nat) (st : String) : ChromeWindow :=
  ⟨i, some 0, some 0, some 100, some 100, false, st⟩

/-! ## C8: forgetWindow -/

/-- C8 scenario, before the close: four desktops, current desktop 1 holds
only window 1; window 2 is remembered on desktop 0. -/
def c8state : MState :=
  ⟨1, [(1, ⟨1, "normal", some 0, some 0, some 100, some 100⟩),
       (2, ⟨0, "normal", some 0, some 480, some 640, some 480⟩)]⟩

/-- C8 scenario, the live window list after window 1 closed: only window
2, physically minimized (it was minimized when desktop 1 was entered). -/
def c8live : List ChromeWindow :=
  [⟨2, some 0, some 480, some 640, some 480, false, "minimized"⟩]

/-! ## WakeupQueue (the sequential task queue) -/

/-- A task handed to `WakeupQueue.add`: an identifier plus whether the
task invokes its completion signal synchronously when started (`sync`) or
later through an external callback. -/
structure QTask where
  id : Nat
  sync : Bool
deriving DecidableEq, Repr

/-- Observable queue state: `queue_` (the running closure, if any, is its
head), plus the instrumented logs of started and completed task ids. -/
structure QState where
  queue : List QTask
  started : List Nat
  completed : List Nat
deriving DecidableEq, Repr

/-- `wakeupFirst_`: start the head of the queue; a synchronous task calls
`finished` at once, which is `wakeupNext_` — shift and start the next
head.  The recursion consumes the synchronous head chain and stops at the
first asynchronous task (which stays at the head, started). -/
def runHeadAux : List QTask → List Nat → List Nat → QState
  | [], st, cp => ⟨[], st, cp⟩
  | t :: rest, st, cp =>
    if t.sync then runHeadAux rest (st ++ [t.id]) (cp ++ [t.id])
    else ⟨t :: rest, st ++ [t.id], cp⟩

/-- `WakeupQueue.add`: push the task; when the queue was idle, wake the
head immediately. -/
def qAdd (s : QState) (t : QTask) : QState :=
  if s.queue.isEmpty then runHeadAux (s.queue ++ [t]) s.started s.completed
  else ⟨s.queue ++ [t], s.started, s.completed⟩

/-- The running (asynchronous) head task invoking its completion signal:
`wakeupNext_` shifts the queue and wakes the next head.  With an empty
queue there is nothing to complete (no such call exists in the real
system; modelled as a no-op). -/
def qComplete (s : QState) : QState :=
  match s.queue with
  | [] => s
  | t :: rest => runHeadAux rest s.started (s.completed ++ [t.id])

/-- External events driving one `WakeupQueue`. -/
inductive QEvent
  | add (t : QTask)
  | complete
deriving DecidableEq, Repr

/-- One event step. -/
def qStep (s : QState) (e : QEvent) : QState :=
  match e with
  | .add t => qAdd s t
  | .complete => qComplete s

/-- Run a queue from idle over an event list. -/
def qRun (events : List QEvent) : QState :=
  events.foldl qStep ⟨[], [], []⟩

/-- The ids passed to `add`, in call order. -/
def addedIds (events : List QEvent) : List Nat :=
  events.filterMap (fun e => match e with | .add t => some t.id | .complete => none)

/-- `WakeupQueue.isIdle`. -/
def qIsIdle (s : QState) : Bool :=
  s.queue.isEmpty

/-- The queue invariant: completed ids followed by queued ids are exactly
the added ids in order; the started ids are the completed ones plus the
queue head (which is always a started, asynchronous task). -/
def QInv (s : QState) (added : List Nat) : Prop :=
  s.completed ++ s.queue.map (fun t => t.id) = added ∧
  s.started = s.completed ++ (s.queue.map (fun t => t.id)).take 1 ∧
  (∀ t, s.queue.head? = some t → t.sync = false)

/-- The ids one event adds. -/
def eventAddedIds (e : QEvent) : List Nat :=
  match e with
  | .add t => [t.id]
  | .complete => []

/-! ## C10: an unknown request stalls the wakeup queue forever -/

/-- The six `virtualdesktops.RequestType` values. -/
def RequestTypeValues : List String :=
  ["moveWindow", "extractTab", "switchToNextDesktop", "switchToPreviousDesktop",
   "currentToNextDesktop", "currentToPreviousDesktop"]

/-- Whether the task `messageHandler_` enqueues for a request ever invokes
its completion signal: the `switch` has a case for exactly the six
`RequestType` values, each routing into an operation that eventually runs
`callback` (which calls `sendResponse` and `finished`); there is no
default case, so for any other request value the task returns without
ever signalling. -/
def messageTaskCompletes (request : String) : Bool :=
  decide (request ∈ RequestTypeValues)

/-! ## BarrierClosure (the fan-in barrier)

The `BarrierClosure` implementation itself does not ship with the
sources (only its unit test `barrier_closure_test.js` and its call sites
in `virtual_desktop_manager.js` do), so the component is modelled from
the design specification §4.2 and the behaviour its unit test pins
down. -/

/-- Events driving one barrier: `get` (obtain a signal, before
finalization only), `signal` (one obtained signal is invoked),
`finalize`, and `thenReg` (the `then(continuation)` registration). -/
inductive BarrierEvent
  | get
  | signal
  | finalize
  | thenReg
deriving DecidableEq, Repr

/-- Modelled from the spec: the observable state of a `BarrierClosure`
(implementation missing from the sources) — the count of obtained
signals not yet invoked, whether `finalize()` ran, whether a continuation
is registered, and how many times the continuation has run. -/
structure BarrierState where
  pending : Nat
  finalized : Bool
  hasContinuation : Bool
  fired : Nat
deriving DecidableEq, Repr

/-- Modelled from the spec: the continuation runs immediately at the
event that first makes `finalize()`-done, all-signals-invoked and
continuation-registered true, and never again. -/
def barrierFire (s : BarrierState) : BarrierState :=
  if s.finalized = true ∧ s.hasContinuation = true ∧ s.pending = 0 ∧ s.fired = 0 then
    { s with fired := s.fired + 1 }
  else s

/-- Modelled from the spec: one barrier event.  `get` increments the
pending count; an invoked signal decrements it; `finalize` freezes the
set; `then` registers the continuation; the three latter events fire the
continuation when its condition just became true. -/
def barrierStep (s : BarrierState) (e : BarrierEvent) : BarrierState :=
  match e with
  | .get => { s with pending := s.pending + 1 }
  | .signal => barrierFire { s with pending := s.pending - 1 }
  | .finalize => barrierFire { s with finalized := true }
  | .thenReg => barrierFire { s with hasContinuation := true }

/-- Modelled from the spec: a barrier starts with no obtained signal, not
finalized, no continuation, continuation never run. -/
def barrierRun (t : List BarrierEvent) : BarrierState :=
  t.foldl barrierStep ⟨0, false, false, 0⟩

/-- Whether an event is a `get`. -/
def isGet : BarrierEvent → Bool
  | .get => true
  | _ => false

/-- Whether an event is a signal invocation. -/
def isSignal : BarrierEvent → Bool
  | .signal => true
  | _ => false

/-- Number of obtained signals so far. -/
def getCount (t : List BarrierEvent) : Nat :=
  t.countP isGet

/-- Number of invoked signals so far. -/
def signalCount (t : List BarrierEvent) : Nat :=
  t.countP isSignal

/-- A legal barrier usage: at every point at most as many signals have
been invoked as were obtained (each obtained signal is invoked at most
once), and no `get` happens after `finalize`. -/
def ValidBarrierTrace (t : List BarrierEvent) : Prop :=
  (∀ i, i ≤ t.length → signalCount (t.take i) ≤ getCount (t.take i)) ∧
  (∀ i, i ≤ t.length → BarrierEvent.finalize ∈ t.take i → BarrierEvent.get ∉ t.drop i)

/-- A decidable check of trace validity (both conditions are bounded
universals over decidable propositions). -/
instance decValidBarrierTrace (t : List BarrierEvent) : Decidable (ValidBarrierTrace t) := by
  unfold ValidBarrierTrace
  exact inferInstance

/-! ## WindowProvider geometry reconciliation -/

/-- `virtualdesktops.WINDOW_MANAGER_ATTEMPTS`. -/
def WINDOW_MANAGER_ATTEMPTS : Nat := 5

/-- `virtualdesktops.WINDOW_MANAGER_TOLERANCE`. -/
def WINDOW_MANAGER_TOLERANCE : Int := 64

/-- JS arithmetic coercion of a possibly-`null` bounds field: `null`
coerces to 0. -/
def jsNum (v : Option Int) : Int :=
  v.getD 0

/-- The result of `fixUpdateInfo`: the compensating update and the total
pixel distance it would move the bottom-right corner. -/
structure FixResult where
  newUpdateInfo : UpdateInfo
  distance : Int
deriving DecidableEq, Repr

/-- `WindowProvider.fixUpdateInfo`: for each requested dimension pair
(`left`+`width`, `top`+`height`), the signed offset between the actual
and the requested far edge; the new update adjusts width/height by the
negative offset, and `distance` sums the absolute offsets of the
requested pairs. -/
def fixUpdateInfo (win : ChromeWindow) (u : UpdateInfo) : FixResult :=
  let base : FixResult := ⟨{}, 0⟩
  let r1 :=
    match u.width, u.left with
    | some uw, some ul =>
      let dx := (jsNum win.left + jsNum win.width) - (ul + uw)
      (⟨{ base.newUpdateInfo with width := some (uw - dx) }, base.distance + |dx|⟩ : FixResult)
    | _, _ => base
  match u.height, u.top with
  | some uh, some ut =>
    let dy := (jsNum win.top + jsNum win.height) - (ut + uh)
    (⟨{ r1.newUpdateInfo with height := some (uh - dy) }, r1.distance + |dy|⟩ : FixResult)
  | _, _ => r1

/-- Observable outcome of one `checkWindowUpdated_` cascade: the
corrective `chrome.windows.update` writes issued, how many times the
callback ran, and how many read-backs (`get`) were performed. -/
structure CheckResult where
  fixWrites : List UpdateInfo
  callbacks : Nat
  reads : Nat
deriving DecidableEq, Repr

/-- `WindowProvider.checkWindowUpdated_`: after the settle delay, read
the window back (`obs i` is what `get` returns at attempt `i`; `none`
models a vanished window).  Distance 0: done.  Distance above tolerance:
retry, up to `WINDOW_MANAGER_ATTEMPTS` read-backs, then give up and call
the callback.  Otherwise: issue exactly one corrective write and call the
callback with no further verification. -/
def checkWindowUpdated (obs : Nat → Option ChromeWindow) (u : UpdateInfo) (i : Nat) : CheckResult :=
  if _h : WINDOW_MANAGER_ATTEMPTS ≤ i then ⟨[], 1, 0⟩
  else
    match obs i with
    | none => ⟨[], 1, 1⟩
    | some win =>
      let fixes := fixUpdateInfo win u
      if fixes.distance = 0 then ⟨[], 1, 1⟩
      else if WINDOW_MANAGER_TOLERANCE < fixes.distance then
        let r := checkWindowUpdated obs u (i + 1)
        ⟨r.fixWrites, r.callbacks, r.reads + 1⟩
      else ⟨[fixes.newUpdateInfo], 1, 1⟩
termination_by WINDOW_MANAGER_ATTEMPTS - i
decreasing_by
  simp_wf
  omega

/-- `WindowProvider.update`: issue the write, then verify from attempt
0. -/
def windowProviderUpdate (obs : Nat → Option ChromeWindow) (u : UpdateInfo) : CheckResult :=
  checkWindowUpdated obs u 0

/-- The window observed in the C7 witness: the X11 decoration example of
the unit test — requested (100, 100, 300, 200), read back with the top
left shifted by the border (3) and title bar (10 + 3). -/
def c7win : ChromeWindow :=
  ⟨9, some 103, some 113, some 300, some 200, false, "normal"⟩

/-! ## Theorems -/

/-! ## Range of the double-modulo wrap -/

/-- Truncating remainder negates with its dividend. -/
lemma tmod_neg_dividend (a b : Int) : (-a).tmod b = -(a.tmod b) := by
  simp only [Int.tmod_def, Int.neg_tdiv, Int.mul_neg]
  ring

/-- Lower bound of the truncating remainder for a positive modulus. -/
lemma neg_lt_tmod (a : Int) {b : Int} (hb : 0 < b) : -b < a.tmod b := by
  rcases le_or_lt 0 a with ha | ha
  · have h := Int.tmod_nonneg b ha
    omega
  · have h1 : (-a).tmod b < b := Int.tmod_lt_of_pos _ hb
    have h2 : (-a).tmod b = -(a.tmod b) := tmod_neg_dividend a b
    omega

/-- The double-modulo wrap always lands in `[0, n)` for `n ≥ 1`. -/
lemma wrapDesktop_range (a : Int) {n : Int} (hn : 1 ≤ n) :
    0 ≤ wrapDesktop a n ∧ wrapDesktop a n < n := by
  unfold wrapDesktop
  have hpos : (0 : Int) < n := hn
  have h2 : -n < (a + n).tmod n := neg_lt_tmod _ hpos
  have hx0 : 0 ≤ (a + n).tmod n + n := by omega
  exact ⟨Int.tmod_nonneg _ hx0, Int.tmod_lt_of_pos _ hpos⟩

/-- C1: for every desktop count `n ≥ 1`, every integer request and every
stored `currentDesktopIndex`, `numberToDesktopId_(req, false)` returns a
value in `[0, n)`. -/
theorem c1_normalize_in_range (n current req : Int) (ws : WindowStates)
    (hn : 1 ≤ n) :
    0 ≤ numberToDesktopId n ⟨current, ws⟩ req false ∧
    numberToDesktopId n ⟨current, ws⟩ req false < n := by
  have hdef : numberToDesktopId n ⟨current, ws⟩ req false =
      wrapDesktop (clampStep n current req).2 n := rfl
  rw [hdef]
  exact wrapDesktop_range _ hn

/-- C1 witness: a concrete instantiation of `c1_normalize_in_range`. -/
theorem c1_normalize_in_range_witness :
    (1 : Int) ≤ 3 ∧
    (0 ≤ numberToDesktopId 3 ⟨5, []⟩ (-7) false ∧
      numberToDesktopId 3 ⟨5, []⟩ (-7) false < 3) :=
  ⟨by decide, c1_normalize_in_range 3 5 (-7) [] (by decide)⟩

/-- C2 counterexample: with `currentDesktopIndex = 4` and the count shrunk
to `N = 3`, requesting desktop 5 normalizes to 0, not to 2 as claimed
(the code shifts 5 left by the clamping amount to 3 and then wraps to 0;
this matches the worked table in the source comment). -/
theorem c2_counterexample :
    numberToDesktopId 3 ⟨4, []⟩ 5 false = 0 ∧
    ¬ numberToDesktopId 3 ⟨4, []⟩ 5 false = 2 := by decide

/-- C2 (amended): with `currentDesktopIndex = 4` and the count shrunk to
`N = 3`, requesting 5 normalizes to 0 (shift left by the clamping amount,
then wrap) and requesting 3 normalizes to 2 (collapse-to-max rule). -/
theorem c2_shrink_remap :
    numberToDesktopId 3 ⟨4, []⟩ 5 false = 0 ∧
    numberToDesktopId 3 ⟨4, []⟩ 3 false = 2 := by decide

/-- The centred residue computed by the code lies in `[-n/2, n/2)`. -/
lemma centred_range {n : Int} (hn : 1 ≤ n) (d : Int) :
    -n ≤ 2 * (d - n * jsRoundDiv d n) ∧ 2 * (d - n * jsRoundDiv d n) < n := by
  unfold jsRoundDiv
  have h2n : (0 : Int) < 2 * n := by omega
  rw [Int.fdiv_eq_ediv _ (by omega : (0 : Int) ≤ 2 * n)]
  have hmod := Int.emod_nonneg (2 * d + n) (by omega : (2 * n : Int) ≠ 0)
  have hlt := Int.emod_lt_of_pos (2 * d + n) h2n
  have key : 2 * (d - n * ((2 * d + n) / (2 * n))) = (2 * d + n) % (2 * n) - n := by
    have heq := Int.ediv_add_emod (2 * d + n) (2 * n)
    linear_combination -heq
  rw [key]
  omega

/-- C3 counterexample: on `c3state` with `N = 4`, requesting desktop 2 the
source algorithm walks backward and returns 1, while the algorithm as the
claim words it (interval `(-n/2, n/2]`) walks forward and returns 3. -/
theorem c3_counterexample :
    numberToDesktopId 4 c3state 2 true = 1 ∧
    numberToDesktopIdSpecClaimed 4 c3state 2 = 3 ∧
    ¬ numberToDesktopId 4 c3state 2 true = numberToDesktopIdSpecClaimed 4 c3state 2 := by
  decide

/-- C3 (amended): the adjustment direction of
`normalizeDesktopIndex(req, true)` is the sign of the representative of
the raw difference in the half-open interval `[-n/2, n/2)` (not
`(-n/2, n/2]`), a non-positive representative giving `-1`; stepping in
that direction on the claim's example layout (windows on desktops 0 and
2, current 0, request 1) lands on desktop 2. -/
theorem c3_direction_amended :
    (∀ n d r : Int, 1 ≤ n → -n ≤ 2 * r → 2 * r < n → n ∣ d - r →
      directionFromDiff n d = if r ≤ 0 then -1 else 1) ∧
    numberToDesktopId 3
      ⟨0, [(1, ⟨0, "normal", none, none, none, none⟩),
           (2, ⟨2, "normal", none, none, none, none⟩)]⟩ 1 true = 2 := by
  constructor
  · intro n d r hn hlo hhi hdvd
    obtain ⟨m, hm⟩ := hdvd
    have hrange := centred_range hn d
    have hcr : d - n * jsRoundDiv d n - r = n * (m - jsRoundDiv d n) := by
      linear_combination hm
    have ht : m - jsRoundDiv d n = 0 := by
      rcases lt_trichotomy (m - jsRoundDiv d n) 0 with hlt | hz | hgt
      · exfalso
        have hle : n * (m - jsRoundDiv d n) ≤ n * (-1) :=
          mul_le_mul_of_nonneg_left (by omega) (by omega)
        omega
      · exact hz
      · exfalso
        have hge : n * 1 ≤ n * (m - jsRoundDiv d n) :=
          mul_le_mul_of_nonneg_left (by omega) (by omega)
        omega
    have hc : d - n * jsRoundDiv d n = r := by
      rw [ht, mul_zero] at hcr
      omega
    unfold directionFromDiff
    rw [hc]
  · decide

/-- C3 witness: the amended direction rule applied at `n = 3`, raw
difference 1, representative 1. -/
theorem c3_direction_amended_witness :
    ((1 : Int) ≤ 3 ∧ -(3 : Int) ≤ 2 * 1 ∧ (2 : Int) * 1 < 3 ∧ (3 : Int) ∣ 1 - 1) ∧
    directionFromDiff 3 1 = if (1 : Int) ≤ 0 then -1 else 1 :=
  ⟨⟨by decide, by decide, by decide, by decide⟩,
    c3_direction_amended.1 3 1 1 (by decide) (by decide) (by decide) (by decide)⟩

/-! ## C9: the refreshed map has exactly the live windows as keys -/

/-- C9: after `updateWindowStates_`, the key list of the remembered-state
map is exactly the id list of the live windows; when the live ids are
distinct (as `chrome.windows.getAll` guarantees) every live id has exactly
one entry and absent ids have none. -/
theorem c9_refresh_keys (current : Int) (old : WindowStates) (windows : List ChromeWindow) :
    (updateWindowStates current old windows).map Prod.fst = windows.map (fun w => w.id) ∧
    (∀ id : Nat, (windows.map (fun w => w.id)).Nodup →
      ((updateWindowStates current old windows).map Prod.fst).count id =
        if id ∈ windows.map (fun w => w.id) then 1 else 0) := by
  have hkeys : (updateWindowStates current old windows).map Prod.fst =
      windows.map (fun w => w.id) := by
    unfold updateWindowStates
    rw [List.map_map]
    rfl
  refine ⟨hkeys, ?_⟩
  intro id hnodup
  rw [hkeys]
  by_cases hmem : id ∈ windows.map (fun w => w.id)
  · rw [if_pos hmem]
    exact List.count_eq_one_of_mem hnodup hmem
  · rw [if_neg hmem]
    exact List.count_eq_zero_of_not_mem hmem

/-- C9 witness: `c9_refresh_keys` at a concrete two-window list. -/
theorem c9_refresh_keys_witness :
    (([exWin 1 "normal", exWin 2 "minimized"].map (fun w => w.id)).Nodup) ∧
    ((updateWindowStates 0 [] [exWin 1 "normal", exWin 2 "minimized"]).map Prod.fst).count 1 =
      if 1 ∈ [exWin 1 "normal", exWin 2 "minimized"].map (fun w => w.id) then 1 else 0 :=
  ⟨by decide,
    (c9_refresh_keys 0 [] [exWin 1 "normal", exWin 2 "minimized"]).2 1 (by decide)⟩

/-! ## C6: switching to the current desktop mutates nothing -/

/-- When `switchFinish` ends on the previous desktop it issues no update
and runs the callback once. -/
lemma switchFinish_same (prev newCurrent : Int) (ws2 : WindowStates)
    (windows : List ChromeWindow) (fid : Option Nat)
    (h : (switchFinish prev newCurrent ws2 windows fid).state.currentDesktop = prev) :
    (switchFinish prev newCurrent ws2 windows fid).updates = [] ∧
    (switchFinish prev newCurrent ws2 windows fid).callbacks = 1 := by
  unfold switchFinish at h ⊢
  by_cases hc : newCurrent = prev
  · rw [if_pos hc]
    exact ⟨rfl, rfl⟩
  · rw [if_neg hc] at h
    exact absurd h hc

/-- C6: whenever the normalized new desktop equals the previous
`currentDesktopIndex`, `switchToDesktop` issues no `WindowProvider.update`
call and still runs its callback exactly once. -/
theorem c6_same_desktop_no_mutation (n : Int) (de : Bool) (st : MState)
    (windows : List ChromeWindow) (desktop : Int) (fid : Option Nat) (send : Bool)
    (h : (switchToDesktop n de st windows desktop fid send).state.currentDesktop = st.currentDesktop) :
    (switchToDesktop n de st windows desktop fid send).updates = [] ∧
    (switchToDesktop n de st windows desktop fid send).callbacks = 1 :=
  switchFinish_same _ _ _ _ _ h

/-- C6 witness: a no-op switch on an empty system. -/
theorem c6_same_desktop_no_mutation_witness :
    (switchToDesktop 4 DISALLOW_EMPTY_DESKTOPS ⟨0, []⟩ [] 0 none false).state.currentDesktop =
      (MState.mk 0 []).currentDesktop ∧
    ((switchToDesktop 4 DISALLOW_EMPTY_DESKTOPS ⟨0, []⟩ [] 0 none false).updates = [] ∧
      (switchToDesktop 4 DISALLOW_EMPTY_DESKTOPS ⟨0, []⟩ [] 0 none false).callbacks = 1) :=
  ⟨by decide, c6_same_desktop_no_mutation 4 DISALLOW_EMPTY_DESKTOPS ⟨0, []⟩ [] 0 none false (by decide)⟩

/-- C8: closing the only window of the current desktop does delete its
state, runs the callback once and auto-switches to the non-empty desktop
0 — but the self-switch the source issues passes the last-focused
`ChromeWindow` object where `switchToDesktop` declares a numeric
`focusedWinId`, so its phase-2 geometry update for window 2 lacks the
`focused: true` field that the claimed call
`switchToDesktop(currentDesktopIndex, lastFocusedWindowId, false, cb)`
(with window 2 last focused) would issue. -/
theorem c8_forget_window_focus_bug :
    (forgetWindow 4 true c8state 1 c8live).state.currentDesktop = 0 ∧
    lookupState (forgetWindow 4 true c8state 1 c8live).state.windowStates 1 = none ∧
    0 < countNonMinimized (forgetWindow 4 true c8state 1 c8live).state.windowStates 0 ∧
    (forgetWindow 4 true c8state 1 c8live).callbacks = 1 ∧
    ((forgetWindow 4 false c8state 1 c8live).updates = [] ∧
      (forgetWindow 4 false c8state 1 c8live).callbacks = 1) ∧
    ¬ (forgetWindow 4 true c8state 1 c8live).updates =
        (forgetWindowClaimed 4 true c8state 1 c8live (some 2)).updates := by
  decide

/-- `runHeadAux` establishes the invariant whenever no task was running
at entry (`st = cp`). -/
lemma runHeadAux_inv (q : List QTask) (st cp : List Nat) (hpre : st = cp) :
    QInv (runHeadAux q st cp) (cp ++ q.map (fun t => t.id)) := by
  induction q generalizing st cp with
  | nil =>
    subst hpre
    refine ⟨by simp [runHeadAux], by simp [runHeadAux], ?_⟩
    intro t h
    simp [runHeadAux] at h
  | cons t rest ih =>
    by_cases hs : t.sync
    · have h := ih (st ++ [t.id]) (cp ++ [t.id]) (by rw [hpre])
      simp only [runHeadAux, hs, if_true]
      simpa using h
    · subst hpre
      refine ⟨by simp [runHeadAux, hs], by simp [runHeadAux, hs], ?_⟩
      intro u hu
      simp [runHeadAux, hs] at hu
      rw [← hu]
      simpa using hs

/-- Every event step preserves the invariant. -/
lemma qStep_inv (s : QState) (added : List Nat) (h : QInv s added) :
    ∀ e : QEvent, QInv (qStep s e) (added ++ eventAddedIds e) := by
  obtain ⟨h1, h2, h3⟩ := h
  intro e
  match e with
  | .add t =>
    show QInv (qAdd s t) (added ++ [t.id])
    match hq : s.queue with
    | [] =>
      have hc : s.completed = added := by simpa [hq] using h1
      have hst : s.started = s.completed := by simpa [hq] using h2
      unfold qAdd
      rw [hq]
      simp only [List.isEmpty_nil, if_true, List.nil_append]
      have := runHeadAux_inv [t] s.started s.completed hst
      simpa [hc] using this
    | q0 :: qs =>
      unfold qAdd
      rw [hq]
      simp only [List.isEmpty_cons, if_false]
      refine ⟨?_, ?_, ?_⟩
      · show s.completed ++ List.map (fun t => t.id) ((q0 :: qs) ++ [t]) = added ++ [t.id]
        rw [hq] at h1
        rw [List.map_append, ← List.append_assoc, h1]
        rfl
      · show s.started =
          s.completed ++ (List.map (fun t => t.id) ((q0 :: qs) ++ [t])).take 1
        rw [h2, hq]
        rfl
      · show ∀ u, ((q0 :: qs) ++ [t] : List QTask).head? = some u → u.sync = false
        intro u hu
        apply h3
        rw [hq]
        exact hu
  | .complete =>
    have hnil : added ++ eventAddedIds QEvent.complete = added := List.append_nil added
    rw [hnil]
    show QInv (qComplete s) added
    match hq : s.queue with
    | [] =>
      unfold qComplete
      rw [hq]
      exact ⟨h1, h2, h3⟩
    | t0 :: rest =>
      have hst : s.started = s.completed ++ [t0.id] := by simpa [hq] using h2
      unfold qComplete
      rw [hq]
      have hres := runHeadAux_inv rest s.started (s.completed ++ [t0.id]) hst
      have hadd : s.completed ++ [t0.id] ++ rest.map (fun t => t.id) = added := by
        rw [List.append_assoc]
        rw [hq] at h1
        simpa using h1
      rw [hadd] at hres
      exact hres

/-- The invariant holds after any event list. -/
lemma qRun_inv (events : List QEvent) : QInv (qRun events) (addedIds events) := by
  induction events using List.reverseRecOn with
  | nil =>
    refine ⟨rfl, rfl, ?_⟩
    intro t h
    cases h
  | append_singleton l e ih =>
    have hfold : qRun (l ++ [e]) = qStep (qRun l) e := by
      simp [qRun, List.foldl_append]
    have hids : addedIds (l ++ [e]) = addedIds l ++ eventAddedIds e := by
      cases e <;> simp [addedIds, eventAddedIds]
    rw [hfold, hids]
    exact qStep_inv (qRun l) (addedIds l) ih e

/-- C5: tasks start in strict FIFO order of their `add` calls (the start
log is a prefix of the added-id list), at most one task is active at any
time (at most one started task is uncompleted), and a task added to an
idle queue starts immediately — completing in the same step when the task
itself is synchronous. -/
theorem c5_wakeup_queue_fifo :
    (∀ events : List QEvent,
      (∃ rest, (qRun events).started ++ rest = addedIds events) ∧
      (qRun events).started.length ≤ (qRun events).completed.length + 1) ∧
    (∀ (events : List QEvent) (t : QTask), (qRun events).queue = [] →
      (qRun (events ++ [QEvent.add t])).started = (qRun events).started ++ [t.id] ∧
      (t.sync = true →
        (qRun (events ++ [QEvent.add t])).completed = (qRun events).completed ++ [t.id] ∧
        (qRun (events ++ [QEvent.add t])).queue = [])) := by
  constructor
  · intro events
    obtain ⟨h1, h2, _⟩ := qRun_inv events
    constructor
    · refine ⟨((qRun events).queue.map (fun t => t.id)).drop 1, ?_⟩
      rw [h2, List.append_assoc, List.take_append_drop]
      exact h1
    · rw [h2]
      have := List.length_take_le 1 ((qRun events).queue.map (fun t => t.id))
      simp only [List.length_append]
      omega
  · intro events t hq
    have hfold : qRun (events ++ [QEvent.add t]) = qAdd (qRun events) t := by
      simp [qRun, List.foldl_append, qStep]
    rw [hfold]
    unfold qAdd
    rw [hq]
    simp only [List.isEmpty_nil, if_true, List.nil_append]
    by_cases hs : t.sync
    · refine ⟨?_, ?_⟩ <;> simp [runHeadAux, hs]
    · refine ⟨by simp [runHeadAux, hs], ?_⟩
      intro htrue
      exact absurd htrue (by simpa using hs)

/-- C5 witness: after a synchronous task ran, the queue is idle again and
a further synchronous task starts and completes immediately. -/
theorem c5_wakeup_queue_fifo_witness :
    (qRun [QEvent.add ⟨1, true⟩]).queue = [] ∧
    (qRun ([QEvent.add ⟨1, true⟩] ++ [QEvent.add ⟨2, true⟩])).started =
      (qRun [QEvent.add ⟨1, true⟩]).started ++ [2] :=
  ⟨by decide, (c5_wakeup_queue_fifo.2 [QEvent.add ⟨1, true⟩] ⟨2, true⟩ (by decide)).1⟩

/-- `runHeadAux` never removes an asynchronous task from the queue. -/
lemma runHeadAux_mem_async (b : QTask) (hb : b.sync = false) :
    ∀ (q : List QTask) (st cp : List Nat), b ∈ q → b ∈ (runHeadAux q st cp).queue := by
  intro q
  induction q with
  | nil =>
    intro st cp h
    cases h
  | cons t rest ih =>
    intro st cp h
    by_cases hs : t.sync = true
    · rcases List.mem_cons.mp h with he | hrest
      · rw [← he, hb] at hs
        cases hs
      · simpa [runHeadAux, hs] using ih _ _ hrest
    · have hs' : t.sync = false := by simpa using hs
      simpa [runHeadAux, hs'] using h

/-- Adding an asynchronous task leaves it in the queue. -/
lemma qAdd_mem (s : QState) (t : QTask) (ht : t.sync = false) :
    t ∈ (qAdd s t).queue := by
  unfold qAdd
  by_cases he : s.queue.isEmpty
  · rw [if_pos he]
    exact runHeadAux_mem_async t ht _ _ _ (by simp)
  · rw [if_neg he]
    simp

/-- A queued asynchronous task survives any event, provided no completion
fires while it is the running head. -/
lemma qStep_mem_bad (s : QState) (b : QTask) (hb : b.sync = false)
    (hmem : b ∈ s.queue) (e : QEvent)
    (hvalid : e = QEvent.complete → ∀ t0, s.queue.head? = some t0 → t0 ≠ b) :
    b ∈ (qStep s e).queue := by
  match e with
  | .add t =>
    show b ∈ (qAdd s t).queue
    unfold qAdd
    have hne : s.queue.isEmpty = false :=
      List.isEmpty_eq_false.mpr (List.ne_nil_of_mem hmem)
    rw [hne]
    simp only [Bool.false_eq_true, if_false]
    exact List.mem_append_left _ hmem
  | .complete =>
    show b ∈ (qComplete s).queue
    unfold qComplete
    match hq : s.queue with
    | [] =>
      rw [hq] at hmem
      cases hmem
    | t0 :: rest =>
      have ht0 : t0 ≠ b := hvalid rfl t0 (by rw [hq]; rfl)
      rw [hq] at hmem
      rcases List.mem_cons.mp hmem with he | hrest
      · exact absurd he.symm ht0
      · exact runHeadAux_mem_async b hb rest _ _ hrest

/-- After enqueueing a never-signalling task, the task stays queued after
every further event, as long as no completion is attributed to it. -/
lemma bad_stays_queued (events suffix : List QEvent) (b : QTask) (hb : b.sync = false)
    (hsafe : ∀ i, i < suffix.length → suffix[i]? = some QEvent.complete →
      ∀ t0, (qRun (events ++ [QEvent.add b] ++ suffix.take i)).queue.head? = some t0 →
        t0 ≠ b) :
    ∀ i, i ≤ suffix.length →
      b ∈ (qRun (events ++ [QEvent.add b] ++ suffix.take i)).queue := by
  intro i
  induction i with
  | zero =>
    intro _
    have h0 : events ++ [QEvent.add b] ++ suffix.take 0 = events ++ [QEvent.add b] := by
      simp
    rw [h0]
    have hfold : qRun (events ++ [QEvent.add b]) = qAdd (qRun events) b := by
      simp [qRun, List.foldl_append, qStep]
    rw [hfold]
    exact qAdd_mem _ _ hb
  | succ i ih =>
    intro hlen
    have hi : i < suffix.length := by omega
    obtain ⟨e, he⟩ : ∃ e, suffix[i]? = some e :=
      ⟨suffix[i], List.getElem?_eq_getElem hi⟩
    have htake : suffix.take (i + 1) = suffix.take i ++ [e] := by
      rw [List.take_succ, he]
      rfl
    have hsplit : events ++ [QEvent.add b] ++ suffix.take (i + 1) =
        (events ++ [QEvent.add b] ++ suffix.take i) ++ [e] := by
      rw [htake]
      simp
    rw [hsplit]
    have hfold : qRun ((events ++ [QEvent.add b] ++ suffix.take i) ++ [e]) =
        qStep (qRun (events ++ [QEvent.add b] ++ suffix.take i)) e := by
      simp [qRun, List.foldl_append]
    rw [hfold]
    refine qStep_mem_bad _ _ hb (ih (by omega)) e ?_
    intro hcmp t0 hhead
    exact hsafe i hi (by rw [he, hcmp]) t0 hhead

/-- C10: a message whose `request` is none of the six `RequestType`
values enqueues a task that never completes; from then on the queue is
never idle again, and every started task id still comes from the adds up
to and including the stuck one — no task enqueued afterwards ever
starts.  `hsafe` states that no completion event fires while the stuck
task is at the head (it never signals); `badId` is fresh among the other
task ids. -/
theorem c10_unknown_request_stalls_queue :
    (∀ request : String, request ∉ RequestTypeValues → messageTaskCompletes request = false) ∧
    (∀ (events suffix : List QEvent) (badId : Nat),
      badId ∉ addedIds events → badId ∉ addedIds suffix →
      (∀ i, i < suffix.length → suffix[i]? = some QEvent.complete →
        ∀ t0, (qRun (events ++ [QEvent.add ⟨badId, false⟩] ++ suffix.take i)).queue.head? = some t0 →
          t0 ≠ (⟨badId, false⟩ : QTask)) →
      (∀ i, i ≤ suffix.length →
        qIsIdle (qRun (events ++ [QEvent.add ⟨badId, false⟩] ++ suffix.take i)) = false) ∧
      (∃ rest, (qRun (events ++ [QEvent.add ⟨badId, false⟩] ++ suffix)).started ++ rest =
        addedIds events ++ [badId])) := by
  constructor
  · intro request h
    exact decide_eq_false h
  · intro events suffix badId hfreshA hfreshS hsafe
    have hmemAll := bad_stays_queued events suffix ⟨badId, false⟩ rfl hsafe
    constructor
    · intro i hile
      have hmem := hmemAll i hile
      unfold qIsIdle
      exact List.isEmpty_eq_false.mpr (List.ne_nil_of_mem hmem)
    · have hmem := hmemAll suffix.length (le_refl _)
      rw [List.take_length] at hmem
      obtain ⟨h1, h2, _⟩ := qRun_inv (events ++ [QEvent.add ⟨badId, false⟩] ++ suffix)
      have hfull : addedIds (events ++ [QEvent.add ⟨badId, false⟩] ++ suffix) =
          (addedIds events ++ [badId]) ++ addedIds suffix := by
        simp [addedIds, List.filterMap_append]
      rw [hfull] at h1
      set s := qRun (events ++ [QEvent.add ⟨badId, false⟩] ++ suffix) with hs
      set A := addedIds events with hA
      set S := addedIds suffix with hS
      have hbadq : badId ∈ s.queue.map (fun t => t.id) :=
        List.mem_map_of_mem (fun t => t.id) hmem
      have hcnt_full : ((A ++ [badId]) ++ S).count badId = 1 := by
        rw [List.count_append, List.count_append,
          List.count_eq_zero_of_not_mem hfreshA, List.count_eq_zero_of_not_mem hfreshS]
        simp
      have hcnt_sum : s.completed.count badId + (s.queue.map (fun t => t.id)).count badId = 1 := by
        rw [← List.count_append, h1, hcnt_full]
      have hq_pos : 0 < (s.queue.map (fun t => t.id)).count badId :=
        List.count_pos_iff.mpr hbadq
      have hbad_not_comp : badId ∉ s.completed := by
        intro hm
        have := List.count_pos_iff.mpr hm
        omega
      match hqq : s.queue with
      | [] =>
        rw [hqq] at hmem
        cases hmem
      | y :: ys =>
        have hqids : s.queue.map (fun t => t.id) = y.id :: ys.map (fun t => t.id) := by
          rw [hqq]
          rfl
        have hstarted : s.started = s.completed ++ [y.id] := by
          rw [h2, hqids]
          rfl
        have h1' : s.completed ++ (y.id :: ys.map (fun t => t.id)) = (A ++ [badId]) ++ S := by
          rw [← hqids]
          exact h1
        have hlenA : s.completed.length ≤ A.length := by
          by_contra hgt
          push_neg at hgt
          have hpre_comp : s.completed = ((A ++ [badId]) ++ S).take s.completed.length :=
            List.prefix_iff_eq_take.mp ⟨y.id :: ys.map (fun t => t.id), h1'⟩
          have htakeA : ((A ++ [badId]) ++ S).take (A.length + 1) = A ++ [badId] := by
            have hl : (A ++ [badId]).length = A.length + 1 := by simp
            rw [← hl]
            exact List.take_left _ _
          have hsub : ((A ++ [badId]) ++ S).take (A.length + 1) =
              (((A ++ [badId]) ++ S).take s.completed.length).take (A.length + 1) := by
            rw [List.take_take]
            congr 1
            omega
          have hbad_in : badId ∈ s.completed := by
            rw [hpre_comp]
            have hmem' : badId ∈ ((A ++ [badId]) ++ S).take (A.length + 1) := by
              rw [htakeA]
              simp
            rw [hsub] at hmem'
            exact (List.take_prefix _ _).subset hmem'
          exact hbad_not_comp hbad_in
        have hstart_take : s.started = ((A ++ [badId]) ++ S).take (s.completed.length + 1) := by
          rw [← h1', List.take_append, hstarted]
          rfl
        refine ⟨((A ++ [badId]).drop (s.completed.length + 1)), ?_⟩
        have hstart_take2 : s.started = (A ++ [badId]).take (s.completed.length + 1) := by
          rw [hstart_take]
          exact List.take_append_of_le_length (by simp; omega)
        rw [hstart_take2]
        exact List.take_append_drop _ _

/-- C10 witness: request `bogus` is unknown; enqueueing its
never-signalling task on an idle queue leaves the queue non-idle even
after a later add, which never starts. -/
theorem c10_unknown_request_stalls_queue_witness :
    ("bogus" ∉ RequestTypeValues ∧
      (1 : Nat) ∉ addedIds [] ∧ (1 : Nat) ∉ addedIds [QEvent.add ⟨2, true⟩]) ∧
    messageTaskCompletes "bogus" = false ∧
    qIsIdle (qRun ([] ++ [QEvent.add ⟨1, false⟩] ++
      ([QEvent.add ⟨2, true⟩]).take 1)) = false :=
  ⟨⟨by decide, by decide, by decide⟩,
    c10_unknown_request_stalls_queue.1 "bogus" (by decide),
    ((c10_unknown_request_stalls_queue.2 [] [QEvent.add ⟨2, true⟩] 1 (by decide) (by decide)
      (by
        intro i hi he
        have h0 : i = 0 := by simpa using hi
        subst h0
        exact absurd he (by decide))).1 1 (by decide))⟩

/-- Validity restricts to every take-prefix. -/
lemma validBarrier_take {t : List BarrierEvent} (hv : ValidBarrierTrace t) (k : Nat) :
    ValidBarrierTrace (t.take k) := by
  obtain ⟨h1, h2⟩ := hv
  have hlen : (t.take k).length = min k t.length := List.length_take k t
  constructor
  · intro j hj
    have htt : (t.take k).take j = t.take j := by
      rw [List.take_take]
      congr 1
      omega
    rw [htt]
    exact h1 j (by omega)
  · intro j hj hmem
    have htt : (t.take k).take j = t.take j := by
      rw [List.take_take]
      congr 1
      omega
    rw [htt] at hmem
    intro hget
    have hdt : (t.take k).drop j = (t.drop j).take (k - j) := List.drop_take k j t
    rw [hdt] at hget
    exact h2 j (by omega) hmem ((List.take_prefix _ _).subset hget)

/-- Validity of `t ++ [e]` gives validity of `t`. -/
lemma validBarrier_of_append {t : List BarrierEvent} {e : BarrierEvent}
    (hv : ValidBarrierTrace (t ++ [e])) : ValidBarrierTrace t := by
  have := validBarrier_take hv t.length
  rwa [List.take_append_of_le_length (le_refl _), List.take_length] at this

/-- One fold step over an appended event. -/
lemma barrierRun_append (t : List BarrierEvent) (e : BarrierEvent) :
    barrierRun (t ++ [e]) = barrierStep (barrierRun t) e := by
  simp [barrierRun, List.foldl_append]

/-- Firing never changes the pending count. -/
lemma barrierFire_pending (s : BarrierState) : (barrierFire s).pending = s.pending := by
  unfold barrierFire
  split <;> rfl

/-- Firing never changes the finalized flag. -/
lemma barrierFire_finalized (s : BarrierState) : (barrierFire s).finalized = s.finalized := by
  unfold barrierFire
  split <;> rfl

/-- Firing never changes the registration flag. -/
lemma barrierFire_hasContinuation (s : BarrierState) :
    (barrierFire s).hasContinuation = s.hasContinuation := by
  unfold barrierFire
  split <;> rfl

/-- The run count after a fire attempt. -/
lemma barrierFire_fired (s : BarrierState) :
    (barrierFire s).fired =
      if s.finalized = true ∧ s.hasContinuation = true ∧ s.pending = 0 ∧ s.fired = 0 then
        s.fired + 1
      else s.fired := by
  unfold barrierFire
  split <;> rfl

/-- The barrier invariant: after any legal trace, `pending` is the count
difference, the two flags reflect whether their events occurred, and the
continuation has run exactly once as soon as — and only when — finalize
happened, the continuation is registered and every obtained signal has
been invoked. -/
lemma barrier_inv : ∀ t : List BarrierEvent, ValidBarrierTrace t →
    (barrierRun t).pending = getCount t - signalCount t ∧
    ((barrierRun t).finalized = true ↔ BarrierEvent.finalize ∈ t) ∧
    ((barrierRun t).hasContinuation = true ↔ BarrierEvent.thenReg ∈ t) ∧
    (barrierRun t).fired =
      (if BarrierEvent.finalize ∈ t ∧ BarrierEvent.thenReg ∈ t ∧
          signalCount t = getCount t then 1 else 0) := by
  intro t
  induction t using List.reverseRecOn with
  | nil =>
    intro _
    refine ⟨rfl, by simp [barrierRun], by simp [barrierRun], by simp [barrierRun]⟩
  | append_singleton t e ih =>
    intro hv
    have hvt := validBarrier_of_append hv
    obtain ⟨hp, hf, hc, hr⟩ := ih hvt
    have hsg : signalCount t ≤ getCount t := by
      have := hvt.1 t.length (le_refl _)
      rwa [List.take_length] at this
    rw [barrierRun_append]
    match e with
    | .get =>
      have hnofin : BarrierEvent.finalize ∉ t := by
        intro hmem
        have h2 := hv.2 t.length (by simp)
        rw [List.take_append_of_le_length (le_refl _), List.take_length,
          List.drop_append_of_le_length (le_refl _), List.drop_length] at h2
        exact h2 hmem (by simp)
      have hgc : getCount (t ++ [BarrierEvent.get]) = getCount t + 1 := by
        simp [getCount, List.countP_append, isGet]
      have hsc : signalCount (t ++ [BarrierEvent.get]) = signalCount t := by
        simp [signalCount, List.countP_append, isSignal]
      have hfm : BarrierEvent.finalize ∈ t ++ [BarrierEvent.get] ↔ BarrierEvent.finalize ∈ t := by
        simp
      have htm : BarrierEvent.thenReg ∈ t ++ [BarrierEvent.get] ↔ BarrierEvent.thenReg ∈ t := by
        simp
      refine ⟨?_, ?_, ?_, ?_⟩
      · show (barrierRun t).pending + 1 = _
        rw [hgc, hsc, hp]
        omega
      · show (barrierRun t).finalized = true ↔ _
        rw [hf, hfm]
      · show (barrierRun t).hasContinuation = true ↔ _
        rw [hc, htm]
      · show (barrierRun t).fired = _
        rw [hr]
        rw [if_neg (by simp [hnofin]), if_neg (by simp [hnofin])]
    | .signal =>
      have hslt : signalCount t + 1 ≤ getCount t := by
        have := hv.1 (t.length + 1) (by simp)
        rw [show (t ++ [BarrierEvent.signal]).take (t.length + 1) = t ++ [BarrierEvent.signal] by
          apply List.take_of_length_le
          simp] at this
        simpa [signalCount, getCount, List.countP_append, isSignal, isGet] using this
      have hgc : getCount (t ++ [BarrierEvent.signal]) = getCount t := by
        simp [getCount, List.countP_append, isGet]
      have hsc : signalCount (t ++ [BarrierEvent.signal]) = signalCount t + 1 := by
        simp [signalCount, List.countP_append, isSignal]
      have hfired0 : (barrierRun t).fired = 0 := by
        rw [hr]
        rw [if_neg]
        intro ⟨_, _, hcnt⟩
        omega
      have hpend : (barrierRun t).pending - 1 = 0 ↔ signalCount t + 1 = getCount t := by
        rw [hp]
        omega
      refine ⟨?_, ?_, ?_, ?_⟩
      · show (barrierFire _).pending = _
        rw [barrierFire_pending]
        show (barrierRun t).pending - 1 = _
        rw [hgc, hsc, hp]
        omega
      · show (barrierFire _).finalized = true ↔ _
        rw [barrierFire_finalized]
        show (barrierRun t).finalized = true ↔ _
        rw [hf]
        simp
      · show (barrierFire _).hasContinuation = true ↔ _
        rw [barrierFire_hasContinuation]
        show (barrierRun t).hasContinuation = true ↔ _
        rw [hc]
        simp
      · show (barrierFire _).fired = _
        rw [hgc, hsc, barrierFire_fired]
        show (if (barrierRun t).finalized = true ∧ (barrierRun t).hasContinuation = true ∧
            (barrierRun t).pending - 1 = 0 ∧ (barrierRun t).fired = 0 then
            (barrierRun t).fired + 1 else (barrierRun t).fired) = _
        by_cases hcnd : (barrierRun t).finalized = true ∧ (barrierRun t).hasContinuation = true ∧
            (barrierRun t).pending - 1 = 0 ∧ (barrierRun t).fired = 0
        · have hnew : BarrierEvent.finalize ∈ t ++ [BarrierEvent.signal] ∧
              BarrierEvent.thenReg ∈ t ++ [BarrierEvent.signal] ∧
              signalCount t + 1 = getCount t :=
            ⟨by simpa using hf.mp hcnd.1, by simpa using hc.mp hcnd.2.1,
              hpend.mp hcnd.2.2.1⟩
          rw [if_pos hcnd, hfired0, if_pos hnew]
        · have hnot : ¬(BarrierEvent.finalize ∈ t ++ [BarrierEvent.signal] ∧
              BarrierEvent.thenReg ∈ t ++ [BarrierEvent.signal] ∧
              signalCount t + 1 = getCount t) := by
            intro hmem
            exact hcnd ⟨hf.mpr (by simpa using hmem.1), hc.mpr (by simpa using hmem.2.1),
              hpend.mpr hmem.2.2, hfired0⟩
          rw [if_neg hcnd, hfired0, if_neg hnot]
    | .finalize =>
      have hgc : getCount (t ++ [BarrierEvent.finalize]) = getCount t := by
        simp [getCount, List.countP_append, isGet]
      have hsc : signalCount (t ++ [BarrierEvent.finalize]) = signalCount t := by
        simp [signalCount, List.countP_append, isSignal]
      refine ⟨?_, ?_, ?_, ?_⟩
      · show (barrierFire _).pending = _
        rw [barrierFire_pending]
        show (barrierRun t).pending = _
        rw [hgc, hsc, hp]
      · show (barrierFire _).finalized = true ↔ _
        rw [barrierFire_finalized]
        show true = true ↔ _
        simp
      · show (barrierFire _).hasContinuation = true ↔ _
        rw [barrierFire_hasContinuation]
        show (barrierRun t).hasContinuation = true ↔ _
        rw [hc]
        simp
      · show (barrierFire _).fired = _
        rw [hgc, hsc, barrierFire_fired]
        show (if true = true ∧ (barrierRun t).hasContinuation = true ∧
            (barrierRun t).pending = 0 ∧ (barrierRun t).fired = 0 then
            (barrierRun t).fired + 1 else (barrierRun t).fired) = _
        by_cases hold : BarrierEvent.thenReg ∈ t ∧ signalCount t = getCount t
        · have hnew : BarrierEvent.finalize ∈ t ++ [BarrierEvent.finalize] ∧
              BarrierEvent.thenReg ∈ t ++ [BarrierEvent.finalize] ∧
              signalCount t = getCount t :=
            ⟨by simp, by simpa using hold.1, hold.2⟩
          rw [if_pos hnew]
          by_cases hcnd : (barrierRun t).fired = 0
          · rw [if_pos ⟨rfl, hc.mpr hold.1, by rw [hp]; omega, hcnd⟩, hcnd]
          · have hone : (barrierRun t).fired = 1 := by
              rw [hr] at hcnd ⊢
              by_cases holdc : BarrierEvent.finalize ∈ t ∧ BarrierEvent.thenReg ∈ t ∧
                  signalCount t = getCount t
              · rw [if_pos holdc]
              · rw [if_neg holdc] at hcnd
                exact absurd rfl hcnd
            rw [if_neg (by intro hx; exact hcnd hx.2.2.2), hone]
        · have hnew : ¬(BarrierEvent.finalize ∈ t ++ [BarrierEvent.finalize] ∧
              BarrierEvent.thenReg ∈ t ++ [BarrierEvent.finalize] ∧
              signalCount t = getCount t) := by
            intro hmem
            exact hold ⟨by simpa using hmem.2.1, hmem.2.2⟩
          rw [if_neg hnew]
          have hnotold : ¬(BarrierEvent.finalize ∈ t ∧ BarrierEvent.thenReg ∈ t ∧
              signalCount t = getCount t) := fun holdc => hold ⟨holdc.2.1, holdc.2.2⟩
          have hfired0 : (barrierRun t).fired = 0 := by
            rw [hr, if_neg hnotold]
          rw [if_neg (by
            intro hx
            have h0 := hx.2.2.1
            rw [hp] at h0
            exact hold ⟨hc.mp hx.2.1, by omega⟩), hfired0]
    | .thenReg =>
      have hgc : getCount (t ++ [BarrierEvent.thenReg]) = getCount t := by
        simp [getCount, List.countP_append, isGet]
      have hsc : signalCount (t ++ [BarrierEvent.thenReg]) = signalCount t := by
        simp [signalCount, List.countP_append, isSignal]
      refine ⟨?_, ?_, ?_, ?_⟩
      · show (barrierFire _).pending = _
        rw [barrierFire_pending]
        show (barrierRun t).pending = _
        rw [hgc, hsc, hp]
      · show (barrierFire _).finalized = true ↔ _
        rw [barrierFire_finalized]
        show (barrierRun t).finalized = true ↔ _
        rw [hf]
        simp
      · show (barrierFire _).hasContinuation = true ↔ _
        rw [barrierFire_hasContinuation]
        show true = true ↔ _
        simp
      · show (barrierFire _).fired = _
        rw [hgc, hsc, barrierFire_fired]
        show (if (barrierRun t).finalized = true ∧ true = true ∧
            (barrierRun t).pending = 0 ∧ (barrierRun t).fired = 0 then
            (barrierRun t).fired + 1 else (barrierRun t).fired) = _
        by_cases hold : BarrierEvent.finalize ∈ t ∧ signalCount t = getCount t
        · have hnew : BarrierEvent.finalize ∈ t ++ [BarrierEvent.thenReg] ∧
              BarrierEvent.thenReg ∈ t ++ [BarrierEvent.thenReg] ∧
              signalCount t = getCount t :=
            ⟨by simpa using hold.1, by simp, hold.2⟩
          rw [if_pos hnew]
          by_cases hcnd : (barrierRun t).fired = 0
          · rw [if_pos ⟨hf.mpr hold.1, rfl, by rw [hp]; omega, hcnd⟩, hcnd]
          · have hone : (barrierRun t).fired = 1 := by
              rw [hr] at hcnd ⊢
              by_cases holdc : BarrierEvent.finalize ∈ t ∧ BarrierEvent.thenReg ∈ t ∧
                  signalCount t = getCount t
              · rw [if_pos holdc]
              · rw [if_neg holdc] at hcnd
                exact absurd rfl hcnd
            rw [if_neg (by intro hx; exact hcnd hx.2.2.2), hone]
        · have hnew : ¬(BarrierEvent.finalize ∈ t ++ [BarrierEvent.thenReg] ∧
              BarrierEvent.thenReg ∈ t ++ [BarrierEvent.thenReg] ∧
              signalCount t = getCount t) := by
            intro hmem
            exact hold ⟨by simpa using hmem.1, hmem.2.2⟩
          rw [if_neg hnew]
          have hnotold : ¬(BarrierEvent.finalize ∈ t ∧ BarrierEvent.thenReg ∈ t ∧
              signalCount t = getCount t) := fun holdc => hold ⟨holdc.1, holdc.2.2⟩
          have hfired0 : (barrierRun t).fired = 0 := by
            rw [hr, if_neg hnotold]
          rw [if_neg (by
            intro hx
            have h0 := hx.2.2.1
            rw [hp] at h0
            exact hold ⟨hf.mp hx.1, by omega⟩), hfired0]

/-- C4: over every legal interleaving of `get`s (before finalize), signal
invocations, `finalize` and the `then` registration: the continuation has
run exactly once as soon as finalize is done, the continuation is
registered and all obtained signals are invoked — in whatever order those
happened; it never runs twice; and at no earlier point has it run unless
finalize had happened and every signal obtained so far had been invoked
and the continuation was registered. -/
theorem c4_barrier_fires_exactly_once (t : List BarrierEvent) (hv : ValidBarrierTrace t) :
    ((BarrierEvent.finalize ∈ t ∧ BarrierEvent.thenReg ∈ t ∧ signalCount t = getCount t) →
      (barrierRun t).fired = 1) ∧
    (barrierRun t).fired ≤ 1 ∧
    (∀ i, i ≤ t.length → 1 ≤ (barrierRun (t.take i)).fired →
      BarrierEvent.finalize ∈ t.take i ∧ BarrierEvent.thenReg ∈ t.take i ∧
        signalCount (t.take i) = getCount (t.take i)) := by
  obtain ⟨_, _, _, hr⟩ := barrier_inv t hv
  refine ⟨?_, ?_, ?_⟩
  · intro hcond
    rw [hr, if_pos hcond]
  · rw [hr]
    split <;> omega
  · intro i hi hfired
    obtain ⟨_, _, _, hri⟩ := barrier_inv (t.take i) (validBarrier_take hv i)
    rw [hri] at hfired
    by_contra hne
    rw [if_neg hne] at hfired
    omega

/-- C4 witness: the synchronous unit-test trace — two signals obtained,
finalize, continuation registered, then both signals invoked — fires the
continuation exactly once. -/
theorem c4_barrier_fires_exactly_once_witness :
    ValidBarrierTrace [BarrierEvent.get, BarrierEvent.get, BarrierEvent.finalize,
      BarrierEvent.thenReg, BarrierEvent.signal, BarrierEvent.signal] ∧
    (barrierRun [BarrierEvent.get, BarrierEvent.get, BarrierEvent.finalize,
      BarrierEvent.thenReg, BarrierEvent.signal, BarrierEvent.signal]).fired = 1 :=
  ⟨by decide,
    (c4_barrier_fires_exactly_once _ (by decide)).1 ⟨by decide, by decide, by decide⟩⟩

/-- When every read-back stays above tolerance, all five attempts are
used and the cascade gives up with no corrective write. -/
lemma check_gives_up (obs : Nat → Option ChromeWindow) (u : UpdateInfo)
    (hbig : ∀ i, i < WINDOW_MANAGER_ATTEMPTS → ∃ win, obs i = some win ∧
      WINDOW_MANAGER_TOLERANCE < (fixUpdateInfo win u).distance) :
    ∀ k i, i + k = WINDOW_MANAGER_ATTEMPTS →
      checkWindowUpdated obs u i = ⟨[], 1, k⟩ := by
  intro k
  induction k with
  | zero =>
    intro i hi
    unfold checkWindowUpdated
    rw [dif_pos (by omega)]
  | succ k ih =>
    intro i hi
    obtain ⟨win, hwin, hd⟩ := hbig i (by omega)
    have hd64 : (64 : Int) < (fixUpdateInfo win u).distance := hd
    unfold checkWindowUpdated
    rw [dif_neg (by omega), hwin]
    show (if (fixUpdateInfo win u).distance = 0 then (⟨[], 1, 1⟩ : CheckResult)
      else if WINDOW_MANAGER_TOLERANCE < (fixUpdateInfo win u).distance then
        ⟨(checkWindowUpdated obs u (i + 1)).fixWrites,
          (checkWindowUpdated obs u (i + 1)).callbacks,
          (checkWindowUpdated obs u (i + 1)).reads + 1⟩
      else ⟨[(fixUpdateInfo win u).newUpdateInfo], 1, 1⟩) = ⟨[], 1, k + 1⟩
    rw [if_neg (by omega), if_pos hd, ih (i + 1) (by omega)]

/-- C7: the geometry-reconciling update.  Distance is the sum over the
requested dimension pairs of the absolute far-edge offsets; distance 0
means callback with no corrective write; a positive distance within the
tolerance 64 yields exactly one corrective write (width/height adjusted
by the negative offset) and the callback, with no further read-back; a
distance above tolerance is re-checked, up to 5 attempts, after which the
cascade gives up and calls the callback without converging. -/
theorem c7_geometry_reconciliation :
    (∀ (win : ChromeWindow) (l t w h : Int),
      (fixUpdateInfo win ⟨none, none, some l, some t, some w, some h⟩).distance =
        |(jsNum win.left + jsNum win.width) - (l + w)| +
        |(jsNum win.top + jsNum win.height) - (t + h)|) ∧
    (∀ (obs : Nat → Option ChromeWindow) (u : UpdateInfo) (win : ChromeWindow),
      obs 0 = some win →
      ((fixUpdateInfo win u).distance = 0 →
        windowProviderUpdate obs u = ⟨[], 1, 1⟩) ∧
      (0 < (fixUpdateInfo win u).distance →
        (fixUpdateInfo win u).distance ≤ WINDOW_MANAGER_TOLERANCE →
        windowProviderUpdate obs u = ⟨[(fixUpdateInfo win u).newUpdateInfo], 1, 1⟩)) ∧
    (∀ (u : UpdateInfo) (l w : Int) (win : ChromeWindow),
      u.left = some l → u.width = some w →
      (fixUpdateInfo win u).newUpdateInfo.width =
        some (w - ((jsNum win.left + jsNum win.width) - (l + w)))) ∧
    (∀ (u : UpdateInfo) (t h : Int) (win : ChromeWindow),
      u.top = some t → u.height = some h →
      (fixUpdateInfo win u).newUpdateInfo.height =
        some (h - ((jsNum win.top + jsNum win.height) - (t + h)))) ∧
    (∀ (obs : Nat → Option ChromeWindow) (u : UpdateInfo),
      (∀ i, i < WINDOW_MANAGER_ATTEMPTS → ∃ win, obs i = some win ∧
        WINDOW_MANAGER_TOLERANCE < (fixUpdateInfo win u).distance) →
      windowProviderUpdate obs u = ⟨[], 1, WINDOW_MANAGER_ATTEMPTS⟩) := by
  refine ⟨?_, ?_, ?_, ?_, ?_⟩
  · intro win l t w h
    show 0 + |(jsNum win.left + jsNum win.width) - (l + w)| +
        |(jsNum win.top + jsNum win.height) - (t + h)| = _
    ring
  · intro obs u win hobs
    constructor
    · intro hdist
      unfold windowProviderUpdate checkWindowUpdated
      rw [dif_neg (by decide), hobs]
      show (if (fixUpdateInfo win u).distance = 0 then (⟨[], 1, 1⟩ : CheckResult)
        else if WINDOW_MANAGER_TOLERANCE < (fixUpdateInfo win u).distance then
          ⟨(checkWindowUpdated obs u (0 + 1)).fixWrites,
            (checkWindowUpdated obs u (0 + 1)).callbacks,
            (checkWindowUpdated obs u (0 + 1)).reads + 1⟩
        else ⟨[(fixUpdateInfo win u).newUpdateInfo], 1, 1⟩) = ⟨[], 1, 1⟩
      rw [if_pos hdist]
    · intro hpos htol
      have htol64 : (fixUpdateInfo win u).distance ≤ (64 : Int) := htol
      unfold windowProviderUpdate checkWindowUpdated
      rw [dif_neg (by decide), hobs]
      show (if (fixUpdateInfo win u).distance = 0 then (⟨[], 1, 1⟩ : CheckResult)
        else if WINDOW_MANAGER_TOLERANCE < (fixUpdateInfo win u).distance then
          ⟨(checkWindowUpdated obs u (0 + 1)).fixWrites,
            (checkWindowUpdated obs u (0 + 1)).callbacks,
            (checkWindowUpdated obs u (0 + 1)).reads + 1⟩
        else ⟨[(fixUpdateInfo win u).newUpdateInfo], 1, 1⟩) =
        ⟨[(fixUpdateInfo win u).newUpdateInfo], 1, 1⟩
      rw [if_neg (by omega), if_neg (by omega)]
  · intro u l w win hl hw
    rcases u with ⟨us, uf, ul', ut', uw', uh'⟩
    simp only at hl hw
    subst hl
    subst hw
    cases ut' <;> cases uh' <;> rfl
  · intro u t h win ht hh
    rcases u with ⟨us, uf, ul', ut', uw', uh'⟩
    simp only at ht hh
    subst ht
    subst hh
    cases ul' <;> cases uw' <;> rfl
  · intro obs u hbig
    exact check_gives_up obs u hbig WINDOW_MANAGER_ATTEMPTS 0 (by decide)

/-- C7 witness: on the decoration example the distance is 16, within
tolerance, and exactly one corrective write is issued before the
callback. -/
theorem c7_geometry_reconciliation_witness :
    ((fun _ => some c7win : Nat → Option ChromeWindow) 0 = some c7win ∧
      0 < (fixUpdateInfo c7win ⟨none, none, some 100, some 100, some 300, some 200⟩).distance ∧
      (fixUpdateInfo c7win ⟨none, none, some 100, some 100, some 300, some 200⟩).distance ≤
        WINDOW_MANAGER_TOLERANCE) ∧
    windowProviderUpdate (fun _ => some c7win)
        ⟨none, none, some 100, some 100, some 300, some 200⟩ =
      ⟨[(fixUpdateInfo c7win ⟨none, none, some 100, some 100, some 300, some 200⟩).newUpdateInfo],
        1, 1⟩ :=
  ⟨⟨rfl, by decide, by decide⟩,
    (c7_geometry_reconciliation.2.1 (fun _ => some c7win)
        ⟨none, none, some 100, some 100, some 300, some 200⟩ c7win rfl).2
      (by decide) (by decide)⟩

end VirtualDesktops
